import Mathlib

/-!
Verification of the chain store of `go-filecoin` (`chain/store.go`): a shallow
embedding of the store's data model and operations, and theorems settling the
specification's claims about them.

Modelling conventions:
* A CID is modelled as a `List Nat`.  A block's CID is an injective flat
  encoding of its content (content addressing made literal: equal CIDs imply
  equal blocks).  The undefined CID `cid.Undef` is the empty list.
* A tipset (`types.TipSet`) is the canonically ordered list of its member
  blocks; its key (`types.SortedCidSet`, `TipSet.String()`) is the list of the
  member CIDs in that order.
* The backing blockstore and datastore are association lists; `Put` overwrites,
  `Get` looks up.  Backend I/O failures are not modelled (writes always
  succeed), matching the claims, which are about the store's own logic.
* Stateful Go methods become functions `Store → ... → Store × Option ChainErr`:
  the returned state carries every mutation performed before an error, exactly
  as the Go `Store` object does.
* Ghost fields (`publishedEvents`, `errorLogCount`, `progressLogs`) record
  observable effects (pubsub events, error logs, periodic progress logs) that
  Go performs as I/O.
-/

deriving instance DecidableEq for Except

namespace GoFilecoin

/-- Error kinds surfaced by the chain store (spec §7). -/
inductive ChainErr where
  | notFound
  | decodeErr
  | conflict
  | undefStateRoot
  | genesisMismatch
  | badTipSet
  | fuelOut
deriving DecidableEq, Repr

/-- CIDs are flat lists of naturals. -/
abbrev Cid := List Nat

/-- `cid.Undef`, the zero CID. -/
def undefCid : Cid := []

/-- A block header.  Only the fields the chain store inspects are modelled:
the parent CID set and the height.  `miner` stands for all remaining
content fields (ticket, state root, messages, signature, ...), which serve
only to distinguish blocks with equal parents and height. -/
structure Block where
  miner : Nat
  height : Nat
  parents : List Cid
deriving DecidableEq, Repr

/-- Injective flat encoding of a list of CIDs: each list is preceded by its
length, so the concatenation can be split back unambiguously. -/
def encodeCids : List Cid → List Nat
  | [] => []
  | c :: cs => c.length :: (c ++ encodeCids cs)

/-- The CID of a block: the hash of its canonical bytes.  Modelled as an
injective encoding of the block's content, which is what a collision-free
hash provides. -/
def blockCid (b : Block) : Cid :=
  b.miner :: b.height :: encodeCids b.parents

/-- A tipset: the canonically ordered (by CID) list of its member blocks.
The Go `types.TipSet` is a map keyed by CID with sorted iteration; its image
here is the iteration-ordered list. -/
abbrev TipSet := List Block

/-- `TipSet.Defined`: a tipset is defined iff non-empty. -/
def TipSet.Defined (ts : TipSet) : Bool := !ts.isEmpty

/-- `TipSet.ToSortedCidSet` / `TipSet.String()`: the canonical tipset key,
the list of member CIDs in canonical order. -/
def tipKey (ts : TipSet) : List Cid := ts.map blockCid

/-- `types.TipSet.Height()`: errors on an empty tipset, else the height of the
first block (all member blocks share it). -/
def TipSetHeight : TipSet → Except ChainErr Nat
  | [] => .error .badTipSet
  | b :: _ => .ok b.height

/-- `ts.At(0).Height` as used at store.go:110 (head tipset, known non-empty). -/
def at0Height : TipSet → Nat
  | [] => 0
  | b :: _ => b.height

/-- `types.TipSet.Parents()`: the shared parent CID set of the member blocks
(empty for the empty tipset). -/
def tipParents : TipSet → List Cid
  | [] => []
  | b :: _ => b.parents

/-- Association-list lookup (datastore / blockstore `Get`). -/
def alistGet {α β : Type} [DecidableEq α] : List (α × β) → α → Option β
  | [], _ => none
  | (k, v) :: rest, key => if key = k then some v else alistGet rest key

/-- Association-list overwrite (datastore / blockstore `Put`). -/
def alistPut {α β : Type} [DecidableEq α] : List (α × β) → α → β → List (α × β)
  | [], key, val => [(key, val)]
  | (k, v) :: rest, key, val =>
      if key = k then (key, val) :: rest else (k, v) :: alistPut rest key val

theorem alistGet_alistPut_self {α β : Type} [DecidableEq α]
    (l : List (α × β)) (k : α) (v : β) :
    alistGet (alistPut l k v) k = some v := by
  induction l with
  | nil => simp [alistGet, alistPut]
  | cons hd tl ih =>
      obtain ⟨k', v'⟩ := hd
      by_cases h : k = k' <;> simp [alistGet, alistPut, h, ih]

theorem alistGet_alistPut_ne {α β : Type} [DecidableEq α]
    (l : List (α × β)) (k k' : α) (v : β) (h : k' ≠ k) :
    alistGet (alistPut l k v) k' = alistGet l k' := by
  induction l with
  | nil => simp [alistGet, alistPut, h]
  | cons hd tl ih =>
      obtain ⟨k0, v0⟩ := hd
      by_cases hk : k = k0
      · subst hk
        simp [alistGet, alistPut, h]
      · by_cases hk' : k' = k0 <;> simp [alistGet, alistPut, hk, hk', ih]

/-- Injectivity of the CID-list encoding. -/
theorem encodeCids_inj : ∀ {xs ys : List Cid}, encodeCids xs = encodeCids ys → xs = ys
  | [], [], _ => rfl
  | [], _ :: _, h => by simp [encodeCids] at h
  | _ :: _, [], h => by simp [encodeCids] at h
  | x :: xs, y :: ys, h => by
      simp only [encodeCids, List.cons.injEq] at h
      obtain ⟨hlen, happ⟩ := h
      obtain ⟨hxy, hrest⟩ := List.append_inj happ hlen
      exact by rw [hxy, encodeCids_inj hrest]

/-- Content addressing: block CIDs are injective. -/
theorem blockCid_inj : Function.Injective blockCid := by
  intro b1 b2 h
  simp only [blockCid, List.cons.injEq] at h
  obtain ⟨hm, hh, hp⟩ := h
  cases b1; cases b2
  simp only [Block.mk.injEq] at *
  exact ⟨hm, hh, encodeCids_inj hp⟩

/-- A block CID is never the undefined CID. -/
theorem blockCid_ne_undef (b : Block) : blockCid b ≠ undefCid := by
  simp [blockCid, undefCid]

/-- Tipset keys are injective (on canonically ordered tipsets). -/
theorem tipKey_inj : Function.Injective tipKey := by
  intro ts1 ts2 h
  exact List.map_injective_iff.mpr blockCid_inj h

/-- `TipSetAndState` (chain/tipindex.go): a tipset bound to the root of the
state tree produced by executing it. -/
structure TipSetAndState where
  tipSet : TipSet
  tipSetStateRoot : Cid
deriving DecidableEq, Repr

/-- The in-memory tipset index: the `by_key` map from canonical tipset key to
`TipSetAndState`.  (The secondary `(parent-key, height)` map is not exercised
by any claim and is omitted.) -/
structure TipIndex where
  byKey : List (List Cid × TipSetAndState)
deriving DecidableEq, Repr

/-- `NewTipIndex`: an empty index. -/
def NewTipIndex : TipIndex := ⟨[]⟩

/-- Modelled from the spec: `TipIndex.Put` (chain/tipindex.go is not in src/).
Spec §4.3: "insert into both maps; tolerate reinsertion of an identical pair;
reject conflicting state-root for an existing key with `Conflict`". -/
def TipIndex.Put (ti : TipIndex) (tsas : TipSetAndState) : Except ChainErr TipIndex :=
  match alistGet ti.byKey (tipKey tsas.tipSet) with
  | some old =>
      if old.tipSetStateRoot = tsas.tipSetStateRoot then .ok ti
      else .error .conflict
  | none => .ok ⟨alistPut ti.byKey (tipKey tsas.tipSet) tsas⟩

/-- Modelled from the spec: `TipIndex.GetTipSet` — fail with `NotFound`. -/
def TipIndex.GetTipSet (ti : TipIndex) (key : List Cid) : Except ChainErr TipSet :=
  match alistGet ti.byKey key with
  | some tsas => .ok tsas.tipSet
  | none => .error .notFound

/-- Modelled from the spec: `TipIndex.GetTipSetStateRoot` — fail with `NotFound`. -/
def TipIndex.GetTipSetStateRoot (ti : TipIndex) (key : List Cid) : Except ChainErr Cid :=
  match alistGet ti.byKey key with
  | some tsas => .ok tsas.tipSetStateRoot
  | none => .error .notFound

/-- Modelled from the spec: `TipIndex.Has`. -/
def TipIndex.Has (ti : TipIndex) (key : List Cid) : Bool :=
  (alistGet ti.byKey key).isSome

/-- Data stored in the blockstore under a CID: either the canonical encoding
of a block, or arbitrary bytes that do not decode as a block. -/
inductive StoredData where
  | blockData (b : Block)
  | junk (n : Nat)
deriving DecidableEq, Repr

/-- `types.DecodeBlock`: decodes stored bytes into a block; fails with a
decode error on bytes that are not a block encoding. -/
def DecodeBlock : StoredData → Except ChainErr Block
  | .blockData b => .ok b
  | .junk _ => .error .decodeErr

/-- Keys of the metadata datastore: the head key `/chain/heaviestTipSet` and
the per-tipset state-record key `makeKey(ts.String(), h)`. -/
inductive DsKey where
  | headK
  | tipK (key : List Cid) (h : Nat)
deriving DecidableEq, Repr

/-- Values of the metadata datastore (CBOR-encoded CID sets and CIDs;
encode/decode round-trips, so values are stored structurally). -/
inductive DsVal where
  | cidsV (cs : List Cid)
  | rootV (c : Cid)
deriving DecidableEq, Repr

/-- The chain `Store` (store.go): private blockstore, metadata datastore,
configured genesis CID, in-memory head, tipset index, and broadcaster state.
`publishedEvents`, `errorLogCount` and `progressLogs` are ghost fields
recording I/O effects: head events delivered to subscribers, error-level log
lines from `SetHead`, and periodic progress log lines of the current `Load`. -/
structure Store where
  bsPriv : List (Cid × StoredData)
  ds : List (DsKey × DsVal)
  genesis : Cid
  head : TipSet
  tipIndex : TipIndex
  shutdown : Bool
  publishedEvents : List TipSet
  errorLogCount : Nat
  progressLogs : Nat
deriving DecidableEq, Repr

/-- `putBlk`: persist one block to the private blockstore, keyed by its CID. -/
def Store.putBlk (st : Store) (b : Block) : Store :=
  { st with bsPriv := alistPut st.bsPriv (blockCid b) (.blockData b) }

/-- The block-persisting loop of `PutTipSetAndState` (store.go:207-211). -/
def Store.putBlks (st : Store) (bs : List Block) : Store :=
  bs.foldl Store.putBlk st

/-- `writeTipSetAndState` (store.go:354-371): reject the undefined state root,
then write the state root under the key derived from the tipset key and its
height. -/
def Store.writeTipSetAndState (st : Store) (tsas : TipSetAndState) :
    Except ChainErr Store :=
  if tsas.tipSetStateRoot = undefCid then .error .undefStateRoot
  else
    match TipSetHeight tsas.tipSet with
    | .error e => .error e
    | .ok h =>
        .ok { st with
                ds := alistPut st.ds (.tipK (tipKey tsas.tipSet) h)
                        (.rootV tsas.tipSetStateRoot) }

/-- `PutTipSetAndState` (store.go:205-224): persist the member blocks, update
the tipset index, then persist the state mapping.  Each failing step aborts,
returning the store as mutated so far. -/
def Store.PutTipSetAndState (st : Store) (tsas : TipSetAndState) :
    Store × Option ChainErr :=
  let st1 := st.putBlks tsas.tipSet
  match st1.tipIndex.Put tsas with
  | .error e => (st1, some e)
  | .ok ti =>
      let st2 := { st1 with tipIndex := ti }
      match st2.writeTipSetAndState tsas with
      | .error e => (st2, some e)
      | .ok st3 => (st3, none)

/-- `GetTipSet` (store.go:228-230). -/
def Store.GetTipSet (st : Store) (tsKey : List Cid) : Except ChainErr TipSet :=
  st.tipIndex.GetTipSet tsKey

/-- `GetTipSetStateRoot` (store.go:234-236). -/
def Store.GetTipSetStateRoot (st : Store) (tsKey : List Cid) : Except ChainErr Cid :=
  st.tipIndex.GetTipSetStateRoot tsKey

/-- `HasTipSetAndState` (store.go:240-242). -/
def Store.HasTipSetAndState (st : Store) (tsKey : List Cid) : Bool :=
  st.tipIndex.Has tsKey

/-- `GetBlock` (store.go:276-282): fetch the stored bytes (NotFound if
absent), then decode them. -/
def Store.GetBlock (st : Store) (c : Cid) : Except ChainErr Block :=
  match alistGet st.bsPriv c with
  | none => .error .notFound
  | some d => DecodeBlock d

/-- `HasBlock` (store.go:295-299): fetch-and-decode, true iff it succeeded. -/
def Store.HasBlock (st : Store) (c : Cid) : Bool :=
  match st.GetBlock c with
  | .ok _ => true
  | .error _ => false

/-- `setHeadPersistent` + `writeHead` (store.go:327-350): persist the head key
and update the in-memory head. -/
def Store.setHeadPersistent (st : Store) (ts : TipSet) : Store :=
  { st with
      ds := alistPut st.ds .headK (.cidsV (tipKey ts)),
      head := ts }

/-- `SetHead` (store.go:308-325): log (but do not reject) an undefined tipset,
persist the new head, then publish a new-head event.  Publication to a shut
down broadcaster is a no-op (spec §4.5); `SetHead` returns success. -/
def Store.SetHead (st : Store) (ts : TipSet) : Store × Option ChainErr :=
  let st0 := if ts.Defined then st
             else { st with errorLogCount := st.errorLogCount + 1 }
  let st1 := st0.setHeadPersistent ts
  let st2 := if st1.shutdown then st1
             else { st1 with publishedEvents := st1.publishedEvents ++ [ts] }
  (st2, none)

/-- `Stop` (store.go:403-405): shut down the head-events broadcaster. -/
def Store.Stop (st : Store) : Store :=
  { st with shutdown := true }

/-- `loadHead` (store.go:161-175): read and decode the persisted head key. -/
def Store.loadHead (st : Store) : Except ChainErr (List Cid) :=
  match alistGet st.ds .headK with
  | none => .error .notFound
  | some (.cidsV cs) => .ok cs
  | some _ => .error .decodeErr

/-- `loadStateRoot` (store.go:177-194): read and decode the per-tipset state
record of `ts`. -/
def Store.loadStateRoot (st : Store) (ts : TipSet) : Except ChainErr Cid :=
  match TipSetHeight ts with
  | .error e => .error e
  | .ok h =>
      match alistGet st.ds (.tipK (tipKey ts) h) with
      | none => .error .notFound
      | some (.rootV c) => .ok c
      | some _ => .error .decodeErr

/-- `GetBlocks` (store.go:258-273): fetch every block of a CID set, aborting
on the first fetch error. -/
def Store.GetBlocks (st : Store) : List Cid → Except ChainErr (List Block)
  | [] => .ok []
  | c :: cs =>
      match st.GetBlock c with
      | .error e => .error e
      | .ok b =>
          match st.GetBlocks cs with
          | .error e => .error e
          | .ok bs => .ok (b :: bs)

/-- Modelled from the spec: `LoadTipSetBlocks` (chain package helper not in
src/).  Spec §4.4 load step 3: "Reconstruct the head tipset by fetching each
member block from the block store"; a tipset must be non-empty. -/
def Store.LoadTipSetBlocks (st : Store) (cids : List Cid) : Except ChainErr TipSet :=
  match st.GetBlocks cids with
  | .error e => .error e
  | .ok blks => if blks.isEmpty then .error .badTipSet else .ok blks

/-- Result of the ancestor-traversal loop of `Load`: the store as mutated so
far, the error (if any), and `genesii`, the last tipset successfully visited. -/
structure LoadLoopOut where
  st : Store
  err : Option ChainErr
  genesii : TipSet
deriving DecidableEq, Repr

/-- The periodic progress-logging step of `Load` (store.go:128-130): emit a
log line when the cadence modulus is non-zero and divides the visited height.
The ghost counter records the emission. -/
def Store.logProgress (st : Store) (logStatusEvery height : Nat) : Store :=
  if logStatusEvery ≠ 0 ∧ height % logStatusEvery = 0
  then { st with progressLogs := st.progressLogs + 1 } else st

/-- The ancestor-traversal loop of `Load` (store.go:119-144), with the
iteration itself modelled from the spec (`IterAncestors` is not in src/):
walk from the head toward genesis, fetching each parent tipset from the block
store; the traversal terminates at a tipset with no parents.  Each visited
tipset is logged (when the cadence modulus divides its height), its state
record is read, and the resulting pair is put into the store. -/
def Store.loadLoop : Nat → Store → Nat → TipSet → TipSet → LoadLoopOut
  | 0, st, _, _, gen => ⟨st, some .fuelOut, gen⟩
  | fuel + 1, st, logStatusEvery, ts, gen =>
      match TipSetHeight ts with
      | .error e => ⟨st, some e, gen⟩
      | .ok height =>
          match (st.logProgress logStatusEvery height).loadStateRoot ts with
          | .error e => ⟨st.logProgress logStatusEvery height, some e, gen⟩
          | .ok stateRoot =>
              match (st.logProgress logStatusEvery height).PutTipSetAndState
                      ⟨ts, stateRoot⟩ with
              | (st', some e) => ⟨st', some e, gen⟩
              | (st', none) =>
                  if (tipParents ts).isEmpty then ⟨st', none, ts⟩
                  else
                    match st'.LoadTipSetBlocks (tipParents ts) with
                    | .error e => ⟨st', some e, ts⟩
                    | .ok parentTs =>
                        Store.loadLoop fuel st' logStatusEvery parentTs ts

/-- The state mutations `Load` performs before reading the head: clear the
tipset index (store.go:99).  The ghost progress-log counter of the current
`Load` call starts at zero. -/
def Store.loadInit (st : Store) : Store :=
  { st with tipIndex := NewTipIndex, progressLogs := 0 }

/-- `Load` after the head tipset has been reconstructed (store.go:110-157):
derive the logging cadence, run the ancestor traversal, check that it
terminated at the single-block genesis, and set the head. -/
def Store.loadAfterHead (fuel : Nat) (st : Store) (headTs : TipSet) :
    Store × Option ChainErr :=
  let logStatusEvery := at0Height headTs / 10
  let out := Store.loadLoop fuel st logStatusEvery headTs []
  match out.err with
  | some e => (out.st, some e)
  | none =>
      match out.genesii with
      | [g] =>
          if blockCid g = out.st.genesis then out.st.SetHead headTs
          else (out.st, some .genesisMismatch)
      | _ => (out.st, some .genesisMismatch)

/-- `Load` (store.go:94-158): clear the index, read the persisted head key,
reconstruct the head tipset from the block store, then traverse and check
genesis via `loadAfterHead`.  `fuel` bounds the traversal depth (the Go loop
is unbounded; any `fuel` larger than the chain length is enough). -/
def Store.Load (fuel : Nat) (st : Store) : Store × Option ChainErr :=
  let st0 := st.loadInit
  match st0.loadHead with
  | .error e => (st0, some e)
  | .ok headTsKey =>
      match st0.LoadTipSetBlocks headTsKey with
      | .error e => (st0, some e)
      | .ok headTs => st0.loadAfterHead fuel headTs

/-! ### Helper lemmas -/

/-- The block-persisting loop only touches the private blockstore. -/
theorem putBlks_fields (st : Store) (bs : List Block) :
    (st.putBlks bs).ds = st.ds ∧ (st.putBlks bs).genesis = st.genesis ∧
    (st.putBlks bs).head = st.head ∧ (st.putBlks bs).tipIndex = st.tipIndex ∧
    (st.putBlks bs).shutdown = st.shutdown ∧
    (st.putBlks bs).publishedEvents = st.publishedEvents ∧
    (st.putBlks bs).errorLogCount = st.errorLogCount ∧
    (st.putBlks bs).progressLogs = st.progressLogs := by
  induction bs generalizing st with
  | nil => exact ⟨rfl, rfl, rfl, rfl, rfl, rfl, rfl, rfl⟩
  | cons b bs ih =>
      have h : st.putBlks (b :: bs) = (st.putBlk b).putBlks bs := rfl
      rw [h]
      exact ih (st.putBlk b)

/-- Once a CID maps to decodable block bytes, further block writes keep it
mapping to decodable block bytes (writes only ever store block encodings). -/
theorem putBlks_blockData_stable (st : Store) (bs : List Block) (c : Cid)
    (h : ∃ b0, alistGet st.bsPriv c = some (.blockData b0)) :
    ∃ b1, alistGet (st.putBlks bs).bsPriv c = some (.blockData b1) := by
  induction bs generalizing st with
  | nil => exact h
  | cons b bs ih =>
      have hstep : st.putBlks (b :: bs) = (st.putBlk b).putBlks bs := rfl
      rw [hstep]
      refine ih (st.putBlk b) ?_
      by_cases hc : c = blockCid b
      · exact ⟨b, by simp [Store.putBlk, hc, alistGet_alistPut_self]⟩
      · obtain ⟨b0, hb0⟩ := h
        exact ⟨b0, by simpa [Store.putBlk, alistGet_alistPut_ne _ _ _ _ hc] using hb0⟩

/-- After the block-persisting loop, every member block's CID maps to
decodable block bytes. -/
theorem putBlks_mem_blockData (st : Store) (bs : List Block) (b : Block)
    (hb : b ∈ bs) :
    ∃ b1, alistGet (st.putBlks bs).bsPriv (blockCid b) = some (.blockData b1) := by
  induction bs generalizing st with
  | nil => cases hb
  | cons x xs ih =>
      have hstep : st.putBlks (x :: xs) = (st.putBlk x).putBlks xs := rfl
      rw [hstep]
      rcases List.mem_cons.mp hb with hbx | hbm
      · subst hbx
        exact putBlks_blockData_stable (st.putBlk b) xs (blockCid b)
          ⟨b, by simp [Store.putBlk, alistGet_alistPut_self]⟩
      · exact ih (st.putBlk x) hbm

/-- A CID mapping to decodable block bytes is in the store. -/
theorem hasBlock_of_blockData (st : Store) (c : Cid) (b : Block)
    (h : alistGet st.bsPriv c = some (.blockData b)) :
    st.HasBlock c = true := by
  simp [Store.HasBlock, Store.GetBlock, h, DecodeBlock]

/-- Characterization of a successful `writeTipSetAndState`. -/
theorem writeTipSetAndState_ok (st st' : Store) (tsas : TipSetAndState)
    (h : st.writeTipSetAndState tsas = .ok st') :
    st'.tipIndex = st.tipIndex ∧ st'.bsPriv = st.bsPriv ∧
    st'.head = st.head ∧ st'.genesis = st.genesis ∧
    st'.shutdown = st.shutdown ∧ st'.publishedEvents = st.publishedEvents ∧
    st'.errorLogCount = st.errorLogCount ∧ st'.progressLogs = st.progressLogs ∧
    tsas.tipSetStateRoot ≠ undefCid := by
  unfold Store.writeTipSetAndState at h
  split at h
  · exact absurd h (by simp)
  · rename_i hroot
    split at h
    · exact absurd h (by simp)
    · injection h with h'
      subst h'
      exact ⟨rfl, rfl, rfl, rfl, rfl, rfl, rfl, rfl, hroot⟩

/-- `logProgress` only touches the ghost progress counter. -/
theorem logProgress_fields (st : Store) (l h : Nat) :
    (st.logProgress l h).bsPriv = st.bsPriv ∧ (st.logProgress l h).ds = st.ds ∧
    (st.logProgress l h).genesis = st.genesis ∧
    (st.logProgress l h).head = st.head ∧
    (st.logProgress l h).tipIndex = st.tipIndex ∧
    (st.logProgress l h).shutdown = st.shutdown ∧
    (st.logProgress l h).publishedEvents = st.publishedEvents := by
  unfold Store.logProgress
  split <;> exact ⟨rfl, rfl, rfl, rfl, rfl, rfl, rfl⟩

/-- `PutTipSetAndState` never changes head, genesis, broadcaster state or the
ghost log counters, on success or failure. -/
theorem putTipSetAndState_fields (st : Store) (tsas : TipSetAndState) :
    (st.PutTipSetAndState tsas).1.genesis = st.genesis ∧
    (st.PutTipSetAndState tsas).1.head = st.head ∧
    (st.PutTipSetAndState tsas).1.shutdown = st.shutdown ∧
    (st.PutTipSetAndState tsas).1.publishedEvents = st.publishedEvents ∧
    (st.PutTipSetAndState tsas).1.errorLogCount = st.errorLogCount ∧
    (st.PutTipSetAndState tsas).1.progressLogs = st.progressLogs := by
  obtain ⟨hds, hg, hh, hti, hsh, hpe, hel, hpl⟩ := putBlks_fields st tsas.tipSet
  simp only [Store.PutTipSetAndState]
  split
  · exact ⟨hg, hh, hsh, hpe, hel, hpl⟩
  · split
    · exact ⟨hg, hh, hsh, hpe, hel, hpl⟩
    · rename_i ti hput st3 hw
      obtain ⟨_, _, h3h, h3g, h3sh, h3pe, h3el, h3pl, _⟩ :=
        writeTipSetAndState_ok _ st3 tsas hw
      exact ⟨h3g.trans hg, h3h.trans hh, h3sh.trans hsh, h3pe.trans hpe,
             h3el.trans hel, h3pl.trans hpl⟩

/-- Characterization of a successful `PutTipSetAndState`: the blockstore holds
the member blocks and the tipset index was updated by `TipIndex.Put`. -/
theorem putTipSetAndState_ok_spec (st st' : Store) (tsas : TipSetAndState)
    (h : st.PutTipSetAndState tsas = (st', none)) :
    st'.bsPriv = (st.putBlks tsas.tipSet).bsPriv ∧
    st.tipIndex.Put tsas = .ok st'.tipIndex := by
  obtain ⟨hds, hg, hh, hti, hsh, hpe, hel, hpl⟩ := putBlks_fields st tsas.tipSet
  simp only [Store.PutTipSetAndState] at h
  split at h
  · exact absurd (congrArg Prod.snd h) (by simp)
  · split at h
    · exact absurd (congrArg Prod.snd h) (by simp)
    · rename_i tiv hput scr st3 hw
      obtain ⟨h3ti, h3bs, _⟩ := writeTipSetAndState_ok _ st3 tsas hw
      have hst3 : st3 = st' := congrArg Prod.fst h
      subst hst3
      refine ⟨h3bs, ?_⟩
      rw [h3ti]
      rw [hti] at hput
      exact hput

/-- `TipSetHeight` fails only with `badTipSet`. -/
theorem tipSetHeight_err (ts : TipSet) (e : ChainErr)
    (h : TipSetHeight ts = .error e) : e = .badTipSet := by
  cases ts <;> simp [TipSetHeight] at h
  exact h.symm

/-- `GetBlock` fails only with `notFound` or `decodeErr`. -/
theorem getBlock_err (st : Store) (c : Cid) (e : ChainErr)
    (h : st.GetBlock c = .error e) : e = .notFound ∨ e = .decodeErr := by
  unfold Store.GetBlock at h
  split at h
  · exact Or.inl (by injection h with h; exact h.symm)
  · rename_i d _
    cases d <;> simp [DecodeBlock] at h
    exact Or.inr h.symm

/-- `GetBlocks` fails only with `notFound` or `decodeErr`. -/
theorem getBlocks_err (st : Store) (cs : List Cid) (e : ChainErr)
    (h : st.GetBlocks cs = .error e) : e = .notFound ∨ e = .decodeErr := by
  induction cs with
  | nil => simp [Store.GetBlocks] at h
  | cons c cs ih =>
      unfold Store.GetBlocks at h
      split at h
      · rename_i e' he
        injection h with h
        exact h ▸ getBlock_err st c e' he
      · split at h
        · rename_i e' he
          injection h with h
          subst h
          exact ih he
        · simp at h

/-- `LoadTipSetBlocks` fails only with `notFound`, `decodeErr` or `badTipSet`. -/
theorem loadTipSetBlocks_err (st : Store) (cs : List Cid) (e : ChainErr)
    (h : st.LoadTipSetBlocks cs = .error e) :
    e = .notFound ∨ e = .decodeErr ∨ e = .badTipSet := by
  unfold Store.LoadTipSetBlocks at h
  split at h
  · rename_i e' he
    injection h with h
    rcases h ▸ getBlocks_err st cs e' he with h1 | h1
    · exact Or.inl h1
    · exact Or.inr (Or.inl h1)
  · split at h
    · injection h with h
      exact Or.inr (Or.inr h.symm)
    · simp at h

/-- `loadStateRoot` fails only with `badTipSet`, `notFound` or `decodeErr`. -/
theorem loadStateRoot_err (st : Store) (ts : TipSet) (e : ChainErr)
    (h : st.loadStateRoot ts = .error e) :
    e = .badTipSet ∨ e = .notFound ∨ e = .decodeErr := by
  unfold Store.loadStateRoot at h
  split at h
  · rename_i e' he
    injection h with h
    exact Or.inl (h ▸ tipSetHeight_err ts e' he)
  · split at h
    · exact Or.inr (Or.inl (by injection h with h; exact h.symm))
    · simp at h
    · injection h with h
      exact Or.inr (Or.inr h.symm)

/-- `TipIndex.Put` fails only with `conflict`. -/
theorem tipIndexPut_err (ti : TipIndex) (tsas : TipSetAndState) (e : ChainErr)
    (h : ti.Put tsas = .error e) : e = .conflict := by
  unfold TipIndex.Put at h
  split at h
  · split at h
    · simp at h
    · injection h with h
      exact h.symm
  · simp at h

/-- `writeTipSetAndState` fails only with `undefStateRoot` or `badTipSet`. -/
theorem writeTipSetAndState_err (st : Store) (tsas : TipSetAndState) (e : ChainErr)
    (h : st.writeTipSetAndState tsas = .error e) :
    e = .undefStateRoot ∨ e = .badTipSet := by
  unfold Store.writeTipSetAndState at h
  split at h
  · exact Or.inl (by injection h with h; exact h.symm)
  · split at h
    · rename_i e' he
      injection h with h
      exact Or.inr (h ▸ tipSetHeight_err _ e' he)
    · simp at h

/-- `PutTipSetAndState` fails only with `conflict`, `undefStateRoot` or
`badTipSet` — never with `genesisMismatch`. -/
theorem putTipSetAndState_err (st : Store) (tsas : TipSetAndState) (e : ChainErr)
    (h : (st.PutTipSetAndState tsas).2 = some e) :
    e = .conflict ∨ e = .undefStateRoot ∨ e = .badTipSet := by
  simp only [Store.PutTipSetAndState] at h
  split at h
  · rename_i e' he
    simp only at h
    injection h with h
    exact Or.inl (h ▸ tipIndexPut_err _ tsas e' he)
  · split at h
    · rename_i e' he
      simp only at h
      injection h with h
      exact Or.inr (h ▸ writeTipSetAndState_err _ tsas e' he)
    · simp at h

/-- A successful `TipIndex.Put` keeps every key the index already had. -/
theorem tipIndexPut_preserves_Has (ti ti' : TipIndex) (tsas : TipSetAndState)
    (k : List Cid) (h : ti.Put tsas = .ok ti') (hk : ti.Has k = true) :
    ti'.Has k = true := by
  unfold TipIndex.Put at h
  split at h
  · split at h
    · injection h with h
      exact h ▸ hk
    · simp at h
  · injection h with h
    subst h
    unfold TipIndex.Has at hk ⊢
    by_cases hkk : k = tipKey tsas.tipSet
    · subst hkk
      simp [alistGet_alistPut_self]
    · simpa [alistGet_alistPut_ne _ _ _ _ hkk] using hk

/-- A successful `TipIndex.Put` leaves the tipset's key present. -/
theorem tipIndexPut_ok_Has (ti ti' : TipIndex) (tsas : TipSetAndState)
    (h : ti.Put tsas = .ok ti') : ti'.Has (tipKey tsas.tipSet) = true := by
  unfold TipIndex.Put at h
  split at h
  · rename_i old hold
    split at h
    · injection h with h
      subst h
      simp [TipIndex.Has, hold]
    · simp at h
  · injection h with h
    subst h
    simp [TipIndex.Has, alistGet_alistPut_self]

/-- `PutTipSetAndState` (successful or not) keeps every key the index had. -/
theorem putTipSetAndState_preserves_Has (st st' : Store) (tsas : TipSetAndState)
    (r : Option ChainErr) (k : List Cid)
    (h : st.PutTipSetAndState tsas = (st', r))
    (hk : st.tipIndex.Has k = true) : st'.tipIndex.Has k = true := by
  obtain ⟨hds, hg, hh, hti, hsh, hpe, hel, hpl⟩ := putBlks_fields st tsas.tipSet
  simp only [Store.PutTipSetAndState] at h
  split at h
  · have : st' = st.putBlks tsas.tipSet := (congrArg Prod.fst h).symm
    rw [this, hti]
    exact hk
  · rename_i tiv hput
    rw [hti] at hput
    split at h
    · have hst' : st' = { st.putBlks tsas.tipSet with tipIndex := tiv } :=
        (congrArg Prod.fst h).symm
      rw [hst']
      exact tipIndexPut_preserves_Has _ _ tsas k hput hk
    · rename_i scr st3 hw
      obtain ⟨h3ti, _⟩ := writeTipSetAndState_ok _ st3 tsas hw
      have hst' : st' = st3 := (congrArg Prod.fst h).symm
      rw [hst', h3ti]
      exact tipIndexPut_preserves_Has _ _ tsas k hput hk

/-- After a successful `PutTipSetAndState` the tipset's key is indexed. -/
theorem putTipSetAndState_ok_Has (st st' : Store) (tsas : TipSetAndState)
    (h : st.PutTipSetAndState tsas = (st', none)) :
    st'.tipIndex.Has (tipKey tsas.tipSet) = true := by
  obtain ⟨_, hput⟩ := putTipSetAndState_ok_spec st st' tsas h
  exact tipIndexPut_ok_Has _ _ tsas hput

/-- The traversal loop never changes the configured genesis CID. -/
theorem loadLoop_genesis (f : Nat) (st : Store) (l : Nat) (ts g : TipSet) :
    (Store.loadLoop f st l ts g).st.genesis = st.genesis := by
  induction f generalizing st ts g with
  | zero => rfl
  | succ f ih =>
      unfold Store.loadLoop
      obtain ⟨_, _, hg, _⟩ := logProgress_fields st l (0 : Nat)
      split
      · rfl
      · rename_i height hh
        have hgl : (st.logProgress l height).genesis = st.genesis :=
          (logProgress_fields st l height).2.2.1
        split
        · exact hgl
        · rename_i root hr
          split
          · rename_i st' e hput
            have := putTipSetAndState_fields (st.logProgress l height) ⟨ts, root⟩
            rw [hput] at this
            exact this.1.trans hgl
          · rename_i st' hput
            have hput1 := putTipSetAndState_fields (st.logProgress l height) ⟨ts, root⟩
            rw [hput] at hput1
            have hst' : st'.genesis = st.genesis := hput1.1.trans hgl
            split
            · exact hst'
            · split
              · exact hst'
              · exact (ih st' _ ts).trans hst'

/-- The traversal loop keeps every key the index already had. -/
theorem loadLoop_preserves_Has (f : Nat) (st : Store) (l : Nat) (ts g : TipSet)
    (k : List Cid) (hk : st.tipIndex.Has k = true) :
    (Store.loadLoop f st l ts g).st.tipIndex.Has k = true := by
  induction f generalizing st ts g with
  | zero => exact hk
  | succ f ih =>
      unfold Store.loadLoop
      split
      · exact hk
      · rename_i height hh
        have hkl : (st.logProgress l height).tipIndex.Has k = true := by
          rw [(logProgress_fields st l height).2.2.2.2.1]
          exact hk
        split
        · exact hkl
        · rename_i root hr
          split
          · rename_i st' e hput
            exact putTipSetAndState_preserves_Has _ st' ⟨ts, root⟩ _ k hput hkl
          · rename_i st' hput
            have hk' : st'.tipIndex.Has k = true :=
              putTipSetAndState_preserves_Has _ st' ⟨ts, root⟩ _ k hput hkl
            split
            · exact hk'
            · split
              · exact hk'
              · exact ih st' _ ts hk'

/-- One successful step of the traversal loop, written as an equation. -/
theorem loadLoop_succ_eq (f : Nat) (st : Store) (l height : Nat) (ts g : TipSet)
    (root : Cid) (st' : Store)
    (hh : TipSetHeight ts = .ok height)
    (hr : (st.logProgress l height).loadStateRoot ts = .ok root)
    (hput : (st.logProgress l height).PutTipSetAndState ⟨ts, root⟩ = (st', none)) :
    Store.loadLoop (f + 1) st l ts g =
      if (tipParents ts).isEmpty then ⟨st', none, ts⟩
      else
        match st'.LoadTipSetBlocks (tipParents ts) with
        | .error e => ⟨st', some e, ts⟩
        | .ok parentTs => Store.loadLoop f st' l parentTs ts := by
  rw [Store.loadLoop]
  simp only [hh, hr, hput]

/-- An erroring step of the traversal loop: the error is surfaced. -/
theorem loadLoop_succ_err (f : Nat) (st : Store) (l : Nat) (ts g : TipSet)
    (h : (Store.loadLoop (f + 1) st l ts g).err = none) :
    ∃ height root st',
      TipSetHeight ts = .ok height ∧
      (st.logProgress l height).loadStateRoot ts = .ok root ∧
      (st.logProgress l height).PutTipSetAndState ⟨ts, root⟩ = (st', none) := by
  rw [Store.loadLoop] at h
  cases hh : TipSetHeight ts with
  | error e => simp only [hh] at h; simp at h
  | ok height =>
      simp only [hh] at h
      cases hr : (st.logProgress l height).loadStateRoot ts with
      | error e => simp only [hr] at h; simp at h
      | ok root =>
          simp only [hr] at h
          rcases hput : (st.logProgress l height).PutTipSetAndState ⟨ts, root⟩ with
            ⟨st', r⟩
          cases r with
          | some e => simp only [hput] at h; simp at h
          | none => exact ⟨height, root, st', rfl, hr, hput⟩

/-- A traversal loop that completes without error leaves its starting tipset
indexed. -/
theorem loadLoop_ok_Has (f : Nat) (st : Store) (l : Nat) (ts g : TipSet)
    (h : (Store.loadLoop f st l ts g).err = none) :
    (Store.loadLoop f st l ts g).st.tipIndex.Has (tipKey ts) = true := by
  induction f generalizing st ts g with
  | zero => simp [Store.loadLoop] at h
  | succ f ih =>
      obtain ⟨height, root, st', hh, hr, hput⟩ := loadLoop_succ_err f st l ts g h
      rw [loadLoop_succ_eq f st l height ts g root st' hh hr hput] at h ⊢
      have hk' : st'.tipIndex.Has (tipKey ts) = true :=
        putTipSetAndState_ok_Has _ st' ⟨ts, root⟩ hput
      by_cases hpar : (tipParents ts).isEmpty = true
      · simpa [hpar] using hk'
      · rw [if_neg (by simp [hpar])] at h ⊢
        cases hltb : st'.LoadTipSetBlocks (tipParents ts) with
        | error e => rw [hltb] at h; simp at h
        | ok parentTs =>
            simpa using loadLoop_preserves_Has f st' l parentTs ts _ hk'

/-- A traversal loop that completes without error terminates at a parentless
tipset. -/
theorem loadLoop_terminal (f : Nat) (st : Store) (l : Nat) (ts g : TipSet)
    (h : (Store.loadLoop f st l ts g).err = none) :
    tipParents (Store.loadLoop f st l ts g).genesii = [] := by
  induction f generalizing st ts g with
  | zero => simp [Store.loadLoop] at h
  | succ f ih =>
      obtain ⟨height, root, st', hh, hr, hput⟩ := loadLoop_succ_err f st l ts g h
      rw [loadLoop_succ_eq f st l height ts g root st' hh hr hput] at h ⊢
      by_cases hpar : (tipParents ts).isEmpty = true
      · simpa [hpar] using List.isEmpty_iff.mp hpar
      · rw [if_neg (by simp [hpar])] at h ⊢
        cases hltb : st'.LoadTipSetBlocks (tipParents ts) with
        | error e => rw [hltb] at h; simp at h
        | ok parentTs =>
            rw [hltb] at h
            have h' : (Store.loadLoop f st' l parentTs ts).err = none := by
              simpa using h
            simpa using ih st' parentTs ts h'

/-- The traversal loop never fails with `genesisMismatch`. -/
theorem loadLoop_err_ne_gm (f : Nat) (st : Store) (l : Nat) (ts g : TipSet) :
    (Store.loadLoop f st l ts g).err ≠ some .genesisMismatch := by
  induction f generalizing st ts g with
  | zero => simp [Store.loadLoop]
  | succ f ih =>
      unfold Store.loadLoop
      split
      · rename_i e he
        rcases tipSetHeight_err ts e he with h
        simp [h]
      · rename_i height hh
        split
        · rename_i e he
          rcases loadStateRoot_err _ ts e he with h | h | h <;> simp [h]
        · rename_i root hr
          split
          · rename_i st' e hput
            have he : ((st.logProgress l height).PutTipSetAndState ⟨ts, root⟩).2 = some e := by
              rw [hput]
            rcases putTipSetAndState_err _ ⟨ts, root⟩ e he with h | h | h <;> simp [h]
          · rename_i st' hput
            split
            · simp
            · split
              · rename_i e he
                rcases loadTipSetBlocks_err st' _ e he with h | h | h <;> simp [h]
              · rename_i parentTs hpar
                exact ih st' parentTs ts

/-- `SetHead` always succeeds and installs exactly the given tipset. -/
theorem setHead_ok (st : Store) (ts : TipSet) :
    (st.SetHead ts).2 = none ∧ (st.SetHead ts).1.head = ts := by
  cases hd : ts.Defined <;> cases hs : st.shutdown <;>
    simp [Store.SetHead, Store.setHeadPersistent, hd, hs]

/-- `Load` reduces to `loadAfterHead` once the persisted head key and the head
tipset have been read successfully. -/
theorem load_eq (fuel : Nat) (st : Store) (hk : List Cid) (hts : TipSet)
    (h1 : st.loadInit.loadHead = .ok hk)
    (h2 : st.loadInit.LoadTipSetBlocks hk = .ok hts) :
    Store.Load fuel st = st.loadInit.loadAfterHead fuel hts := by
  rw [Store.Load]
  simp only [h1, h2]

/-- Exhaustive case analysis of `loadAfterHead`: the loop's error is
propagated; a completed loop either ends at the single-block configured
genesis (and the head is set) or fails with `genesisMismatch`. -/
theorem loadAfterHead_cases (fuel : Nat) (st : Store) (hts : TipSet)
    (out : LoadLoopOut)
    (hout : Store.loadLoop fuel st (at0Height hts / 10) hts [] = out) :
    (∃ e, out.err = some e ∧ st.loadAfterHead fuel hts = (out.st, some e)) ∨
    (out.err = none ∧
      ((∃ g, out.genesii = [g] ∧ blockCid g = out.st.genesis ∧
             st.loadAfterHead fuel hts = out.st.SetHead hts) ∨
       ((∀ g, out.genesii = [g] → blockCid g ≠ out.st.genesis) ∧
        st.loadAfterHead fuel hts = (out.st, some .genesisMismatch)))) := by
  simp only [Store.loadAfterHead]
  rw [hout]
  cases hoe : out.err with
  | some e => exact Or.inl ⟨e, rfl, rfl⟩
  | none =>
      refine Or.inr ⟨rfl, ?_⟩
      cases hg : out.genesii with
      | nil => exact Or.inr ⟨(fun g h => nomatch h), rfl⟩
      | cons g rest =>
          cases rest with
          | nil =>
              by_cases hcid : blockCid g = out.st.genesis
              · exact Or.inl ⟨g, rfl, hcid, by simp [hcid]⟩
              · refine Or.inr ⟨?_, by simp [hcid]⟩
                intro g' hg'
                injection hg' with hg' _
                subst hg'
                exact hcid
          | cons g2 rest2 => exact Or.inr ⟨(fun g' h => nomatch h), rfl⟩

/-! ### Concrete stores for witnesses and counterexamples -/

/-- A single genesis block. -/
def g0 : Block := ⟨0, 0, []⟩

/-- A freshly constructed store (`NewStore` over an empty backend) whose
configured genesis is `g0`. -/
def emptyStore : Store where
  bsPriv := []
  ds := []
  genesis := blockCid g0
  head := []
  tipIndex := NewTipIndex
  shutdown := false
  publishedEvents := []
  errorLogCount := 0
  progressLogs := 0

/-- The store after inserting the genesis tipset with state root `[1]`. -/
def boundStore : Store := (emptyStore.PutTipSetAndState ⟨[g0], [1]⟩).1

/-- A persisted genesis-only chain: head key and state record for `[g0]`. -/
def oneStore : Store where
  bsPriv := [(blockCid g0, .blockData g0)]
  ds := [(.headK, .cidsV [blockCid g0]), (.tipK [blockCid g0] 0, .rootV [1])]
  genesis := blockCid g0
  head := []
  tipIndex := NewTipIndex
  shutdown := false
  publishedEvents := []
  errorLogCount := 0
  progressLogs := 0

/-- A parentless block at height 1 that is not the configured genesis. -/
def xblk : Block := ⟨7, 1, []⟩

/-- A persisted chain whose terminal (parentless) tipset `[xblk]` is not the
configured genesis `g0`. -/
def cexStore : Store where
  bsPriv := [(blockCid xblk, .blockData xblk)]
  ds := [(.headK, .cidsV [blockCid xblk]), (.tipK [blockCid xblk] 1, .rootV [5])]
  genesis := blockCid g0
  head := []
  tipIndex := NewTipIndex
  shutdown := false
  publishedEvents := []
  errorLogCount := 0
  progressLogs := 0

/-- A linear chain of single-block tipsets: block `i + 1` has parent `i`. -/
def chainBlk : Nat → Block
  | 0 => ⟨0, 0, []⟩
  | n + 1 => ⟨0, n + 1, [blockCid (chainBlk n)]⟩

/-- A persisted 11-tipset linear chain (heights 0..10) whose terminal block is
the configured genesis, with head at height 10. -/
def chainStore : Store where
  bsPriv := (List.range 11).map
    (fun i => (blockCid (chainBlk i), .blockData (chainBlk i)))
  ds := (.headK, .cidsV [blockCid (chainBlk 10)]) ::
    (List.range 11).map
      (fun i => (.tipK [blockCid (chainBlk i)] i, .rootV [100 + i]))
  genesis := blockCid (chainBlk 0)
  head := []
  tipIndex := NewTipIndex
  shutdown := false
  publishedEvents := []
  errorLogCount := 0
  progressLogs := 0

/-- A store whose in-memory head is the genesis tipset. -/
def headStore : Store := { oneStore with head := [g0] }

/-- A store whose blockstore holds bytes at CID `[5]` that do not decode as a
block. -/
def junkStore : Store where
  bsPriv := [([5], .junk 0)]
  ds := []
  genesis := blockCid g0
  head := []
  tipIndex := NewTipIndex
  shutdown := false
  publishedEvents := []
  errorLogCount := 0
  progressLogs := 0

/-! ### Claim theorems -/

/-- C1: for every `TipSetAndState` successfully inserted via
`PutTipSetAndState`, a subsequent `GetTipSet` on its key returns its tipset
and `GetTipSetStateRoot` returns its state root.  (The well-formedness
hypothesis — every index entry sits under its own tipset's key — holds for
every index built by `TipIndex.Put` and for the empty index.) -/
theorem putTipSetAndState_then_get (st st' : Store) (tsas : TipSetAndState)
    (hwf : ∀ k e, alistGet st.tipIndex.byKey k = some e → tipKey e.tipSet = k)
    (hput : st.PutTipSetAndState tsas = (st', none)) :
    st'.GetTipSet (tipKey tsas.tipSet) = .ok tsas.tipSet ∧
    st'.GetTipSetStateRoot (tipKey tsas.tipSet) = .ok tsas.tipSetStateRoot := by
  obtain ⟨hbs, hPut⟩ := putTipSetAndState_ok_spec st st' tsas hput
  unfold TipIndex.Put at hPut
  split at hPut
  · rename_i old hold
    split at hPut
    · rename_i hroot
      injection hPut with hPut
      have hts : old.tipSet = tsas.tipSet := tipKey_inj (hwf _ old hold)
      have hget : alistGet st'.tipIndex.byKey (tipKey tsas.tipSet) = some old := by
        rw [← hPut]
        exact hold
      constructor
      · simp only [Store.GetTipSet, TipIndex.GetTipSet, hget, hts]
      · simp only [Store.GetTipSetStateRoot, TipIndex.GetTipSetStateRoot, hget, hroot]
    · simp at hPut
  · injection hPut with hPut
    have hget : alistGet st'.tipIndex.byKey (tipKey tsas.tipSet) = some tsas := by
      rw [← hPut]
      exact alistGet_alistPut_self st.tipIndex.byKey (tipKey tsas.tipSet) tsas
    exact ⟨by simp only [Store.GetTipSet, TipIndex.GetTipSet, hget],
           by simp only [Store.GetTipSetStateRoot, TipIndex.GetTipSetStateRoot, hget]⟩

/-- Witness for C1: inserting the genesis tipset with state root `[1]` into a
fresh store, both lookups return the inserted pair. -/
theorem putTipSetAndState_then_get_witness :
    (emptyStore.PutTipSetAndState ⟨[g0], [1]⟩).1.GetTipSet (tipKey [g0]) =
      .ok [g0] ∧
    (emptyStore.PutTipSetAndState ⟨[g0], [1]⟩).1.GetTipSetStateRoot (tipKey [g0]) =
      .ok [1] :=
  putTipSetAndState_then_get emptyStore
    (emptyStore.PutTipSetAndState ⟨[g0], [1]⟩).1 ⟨[g0], [1]⟩
    (fun _ _ h => nomatch h) (by decide)

/-- C2: inserting an already-bound key with a different state root fails with
`Conflict`, and the index still reports the originally bound root. -/
theorem putTipSetAndState_conflict (st : Store) (tsas : TipSetAndState)
    (k : List Cid) (s1 : Cid)
    (hk : tipKey tsas.tipSet = k)
    (hbound : st.GetTipSetStateRoot k = .ok s1)
    (hne : tsas.tipSetStateRoot ≠ s1) :
    (st.PutTipSetAndState tsas).2 = some .conflict ∧
    (st.PutTipSetAndState tsas).1.GetTipSetStateRoot k = .ok s1 := by
  unfold Store.GetTipSetStateRoot TipIndex.GetTipSetStateRoot at hbound
  cases hold : alistGet st.tipIndex.byKey k with
  | none => rw [hold] at hbound; simp at hbound
  | some old =>
      rw [hold] at hbound
      have hroot : old.tipSetStateRoot = s1 := by simpa using hbound
      obtain ⟨hds, hg, hh, hti, _⟩ := putBlks_fields st tsas.tipSet
      have hcond : ¬old.tipSetStateRoot = tsas.tipSetStateRoot := by
        rw [hroot]
        exact fun h => hne h.symm
      have hPut : st.tipIndex.Put tsas = .error .conflict := by
        unfold TipIndex.Put
        rw [hk, hold]
        simp [hcond]
      constructor
      · simp only [Store.PutTipSetAndState, hti, hPut]
      · simp only [Store.PutTipSetAndState, Store.GetTipSetStateRoot,
          TipIndex.GetTipSetStateRoot, hti, hPut, hold, hroot]

/-- Witness for C2: reinserting the genesis tipset with root `[2]` over the
bound root `[1]` conflicts and leaves `[1]` bound. -/
theorem putTipSetAndState_conflict_witness :
    (boundStore.PutTipSetAndState ⟨[g0], [2]⟩).2 = some .conflict ∧
    (boundStore.PutTipSetAndState ⟨[g0], [2]⟩).1.GetTipSetStateRoot
      (tipKey [g0]) = .ok [1] :=
  putTipSetAndState_conflict boundStore ⟨[g0], [2]⟩ (tipKey [g0]) [1]
    rfl (by decide) (by decide)

/-- C6: after a successful `PutTipSetAndState`, every member block of the
inserted tipset is in the block store. -/
theorem putTipSetAndState_hasBlock (st st' : Store) (tsas : TipSetAndState)
    (b : Block) (hb : b ∈ tsas.tipSet)
    (hput : st.PutTipSetAndState tsas = (st', none)) :
    st'.HasBlock (blockCid b) = true := by
  obtain ⟨hbs, _⟩ := putTipSetAndState_ok_spec st st' tsas hput
  obtain ⟨b1, hb1⟩ := putBlks_mem_blockData st tsas.tipSet b hb
  refine hasBlock_of_blockData st' (blockCid b) b1 ?_
  rw [hbs]
  exact hb1

/-- Witness for C6: after inserting the genesis tipset, its block is in the
block store. -/
theorem putTipSetAndState_hasBlock_witness :
    (emptyStore.PutTipSetAndState ⟨[g0], [1]⟩).1.HasBlock (blockCid g0) = true :=
  putTipSetAndState_hasBlock emptyStore
    (emptyStore.PutTipSetAndState ⟨[g0], [1]⟩).1 ⟨[g0], [1]⟩ g0
    (by simp) (by decide)

/-- C9: `PutTipSetAndState` with the undefined state root (on a key not yet
bound) returns an error, but only after the member blocks were written to the
block store and the pair was inserted into the tipset index; the index entry
remains after the error. -/
theorem putTipSetAndState_undef_root (st : Store) (tsas : TipSetAndState)
    (hroot : tsas.tipSetStateRoot = undefCid)
    (hfresh : alistGet st.tipIndex.byKey (tipKey tsas.tipSet) = none) :
    (st.PutTipSetAndState tsas).2 = some .undefStateRoot ∧
    (st.PutTipSetAndState tsas).1.HasTipSetAndState (tipKey tsas.tipSet) = true ∧
    ∀ b ∈ tsas.tipSet,
      (st.PutTipSetAndState tsas).1.HasBlock (blockCid b) = true := by
  obtain ⟨hds, hg, hh, hti, _⟩ := putBlks_fields st tsas.tipSet
  have hPut : (st.putBlks tsas.tipSet).tipIndex.Put tsas =
      .ok ⟨alistPut st.tipIndex.byKey (tipKey tsas.tipSet) tsas⟩ := by
    unfold TipIndex.Put
    rw [hti, hfresh]
  have hw : Store.writeTipSetAndState
      { st.putBlks tsas.tipSet with
        tipIndex := (⟨alistPut st.tipIndex.byKey (tipKey tsas.tipSet) tsas⟩ : TipIndex) }
      tsas = .error .undefStateRoot := by
    unfold Store.writeTipSetAndState
    rw [hroot]
    simp
  simp only [Store.PutTipSetAndState, hPut, hw]
  refine ⟨trivial, ?_, ?_⟩
  · simp [Store.HasTipSetAndState, TipIndex.Has, alistGet_alistPut_self]
  · intro b hb
    obtain ⟨b1, hb1⟩ := putBlks_mem_blockData st tsas.tipSet b hb
    exact hasBlock_of_blockData _ _ b1 hb1

/-- Witness for C9: inserting the genesis tipset with the undefined state root
into a fresh store errors, yet the index entry and the block remain. -/
theorem putTipSetAndState_undef_root_witness :
    (emptyStore.PutTipSetAndState ⟨[g0], undefCid⟩).2 = some .undefStateRoot ∧
    (emptyStore.PutTipSetAndState ⟨[g0], undefCid⟩).1.HasTipSetAndState
      (tipKey [g0]) = true ∧
    ∀ b ∈ ([g0] : TipSet),
      (emptyStore.PutTipSetAndState ⟨[g0], undefCid⟩).1.HasBlock (blockCid b) =
        true :=
  putTipSetAndState_undef_root emptyStore ⟨[g0], undefCid⟩ rfl rfl

/-- C10: `HasBlock` never surfaces an error (it returns a plain boolean) and
returns true exactly when `GetBlock` succeeds; stored bytes that fail to
decode as a block make it return false even though the CID is present. -/
theorem hasBlock_iff_getBlock (st : Store) (c : Cid) :
    (st.HasBlock c = true ↔ ∃ b, st.GetBlock c = .ok b) ∧
    (∀ n, alistGet st.bsPriv c = some (.junk n) → st.HasBlock c = false) := by
  constructor
  · unfold Store.HasBlock
    cases hg : st.GetBlock c with
    | ok b => simp [hg]
    | error e => simp [hg]
  · intro n hn
    simp [Store.HasBlock, Store.GetBlock, hn, DecodeBlock]

/-- Witness for C10: undecodable bytes stored under CID `[5]` make `HasBlock`
return false although the key is present in the block store. -/
theorem hasBlock_iff_getBlock_witness : junkStore.HasBlock [5] = false :=
  (hasBlock_iff_getBlock junkStore [5]).2 0 rfl

/-- C3 counterexample: a `Load` that fails with `GenesisMismatch` leaves the
tipset index non-empty — it still holds the traversed tipset `[xblk]`,
refuting "the in-memory index is left empty". -/
theorem load_genesisMismatch_cex :
    (Store.Load 5 cexStore).2 = some .genesisMismatch ∧
    (Store.Load 5 cexStore).1.HasTipSetAndState (tipKey [xblk]) = true ∧
    (Store.Load 5 cexStore).1.tipIndex ≠ NewTipIndex := by decide

/-- C3 (amended): whenever `Load` fails with `GenesisMismatch`, the in-memory
index is not empty: it contains the tipsets visited by the traversal, in
particular the head tipset, because the genesis check runs only after every
visited tipset was already put into the index. -/
theorem load_genesisMismatch_head_indexed (fuel : Nat) (st : Store)
    (hk : List Cid) (hts : TipSet) (out : LoadLoopOut)
    (h1 : st.loadInit.loadHead = .ok hk)
    (h2 : st.loadInit.LoadTipSetBlocks hk = .ok hts)
    (h3 : Store.loadLoop fuel st.loadInit (at0Height hts / 10) hts [] = out)
    (hgm : (Store.Load fuel st).2 = some .genesisMismatch) :
    (Store.Load fuel st).1.HasTipSetAndState (tipKey hts) = true := by
  have hL : Store.Load fuel st = st.loadInit.loadAfterHead fuel hts :=
    load_eq fuel st hk hts h1 h2
  rcases loadAfterHead_cases fuel st.loadInit hts out h3 with
    ⟨e, hoe, heq⟩ | ⟨hoe, hcase⟩
  · rw [hL, heq] at hgm
    have he : e = .genesisMismatch := by simpa using hgm
    subst he
    have : (Store.loadLoop fuel st.loadInit (at0Height hts / 10) hts []).err =
        some .genesisMismatch := by
      rw [h3]
      exact hoe
    exact absurd this (loadLoop_err_ne_gm fuel st.loadInit _ hts [])
  · have hHas : out.st.tipIndex.Has (tipKey hts) = true := by
      rw [← h3]
      refine loadLoop_ok_Has fuel st.loadInit _ hts [] ?_
      rw [h3]
      exact hoe
    rcases hcase with ⟨g, hgl, hcid, heq⟩ | ⟨hall, heq⟩
    · rw [hL, heq] at hgm
      rw [(setHead_ok out.st hts).1] at hgm
      cases hgm
    · rw [hL, heq]
      exact hHas

/-- Witness for the amended C3 at the concrete mismatching store. -/
theorem load_genesisMismatch_head_indexed_witness :
    (Store.Load 5 cexStore).1.HasTipSetAndState (tipKey [xblk]) = true :=
  load_genesisMismatch_head_indexed 5 cexStore [blockCid xblk] [xblk]
    (Store.loadLoop 5 cexStore.loadInit (at0Height [xblk] / 10) [xblk] [])
    (by decide) (by decide) rfl (by decide)

/-- C4: given that the persisted head key and head tipset load successfully,
`Load` succeeds if and only if the traversal completes without failure and its
terminal tipset is a single block whose CID is the configured genesis; on
success the head is set to the loaded head tipset; and a traversal that
completes does so at a tipset with no parents. -/
theorem load_genesis_characterization (fuel : Nat) (st : Store)
    (hk : List Cid) (hts : TipSet) (out : LoadLoopOut)
    (h1 : st.loadInit.loadHead = .ok hk)
    (h2 : st.loadInit.LoadTipSetBlocks hk = .ok hts)
    (h3 : Store.loadLoop fuel st.loadInit (at0Height hts / 10) hts [] = out) :
    ((Store.Load fuel st).2 = none ↔
      out.err = none ∧ ∃ g, out.genesii = [g] ∧ blockCid g = st.genesis) ∧
    ((Store.Load fuel st).2 = none → (Store.Load fuel st).1.head = hts) ∧
    (out.err = none → tipParents out.genesii = []) := by
  have hL : Store.Load fuel st = st.loadInit.loadAfterHead fuel hts :=
    load_eq fuel st hk hts h1 h2
  have hgen : out.st.genesis = st.genesis := by
    rw [← h3, loadLoop_genesis]
    rfl
  have hterm : out.err = none → tipParents out.genesii = [] := by
    intro hn
    rw [← h3]
    refine loadLoop_terminal fuel st.loadInit _ hts [] ?_
    rw [h3]
    exact hn
  rcases loadAfterHead_cases fuel st.loadInit hts out h3 with
    ⟨e, hoe, heq⟩ | ⟨hoe, hcase⟩
  · refine ⟨⟨?_, ?_⟩, ?_, hterm⟩
    · intro hc
      rw [hL, heq] at hc
      simp at hc
    · rintro ⟨hn, -⟩
      rw [hoe] at hn
      cases hn
    · intro hc
      rw [hL, heq] at hc
      simp at hc
  · rcases hcase with ⟨g, hgl, hcid, heq⟩ | ⟨hall, heq⟩
    · refine ⟨⟨?_, ?_⟩, ?_, hterm⟩
      · intro _
        exact ⟨hoe, g, hgl, hcid.trans hgen⟩
      · intro _
        rw [hL, heq]
        exact (setHead_ok out.st hts).1
      · intro _
        rw [hL, heq]
        exact (setHead_ok out.st hts).2
    · refine ⟨⟨?_, ?_⟩, ?_, hterm⟩
      · intro hc
        rw [hL, heq] at hc
        simp at hc
      · rintro ⟨-, g, hgl, hcid⟩
        exact absurd (hcid.trans hgen.symm) (hall g hgl)
      · intro hc
        rw [hL, heq] at hc
        simp at hc

/-- Witness for C4: loading the persisted genesis-only chain succeeds and
sets the head to the loaded head tipset `[g0]`. -/
theorem load_genesis_characterization_witness :
    (Store.Load 5 oneStore).2 = none ∧ (Store.Load 5 oneStore).1.head = [g0] := by
  have h := load_genesis_characterization 5 oneStore [blockCid g0] [g0]
    (Store.loadLoop 5 oneStore.loadInit (at0Height [g0] / 10) [g0] [])
    (by decide) (by decide) rfl
  exact ⟨by decide, h.2.1 (by decide)⟩

/-- C5 counterexample: `SetHead` with the undefined (empty) tipset does not
reject it — it returns success and installs the undefined tipset as head,
refuting "rejects with `InvalidArgument`, head unchanged". -/
theorem setHead_undefined_cex :
    (headStore.SetHead []).2 = none ∧
    (headStore.SetHead []).1.head = [] ∧
    headStore.head ≠ [] := by decide

/-- C5 (amended): `SetHead` with an undefined tipset logs an error but
proceeds: it persists the (empty) head key, installs the undefined tipset as
the in-memory head and returns success. -/
theorem setHead_undefined_proceeds (st : Store) (ts : TipSet)
    (h : ts.Defined = false) :
    (st.SetHead ts).2 = none ∧
    (st.SetHead ts).1.head = ts ∧
    alistGet (st.SetHead ts).1.ds .headK = some (.cidsV (tipKey ts)) ∧
    (st.SetHead ts).1.errorLogCount = st.errorLogCount + 1 := by
  cases hs : st.shutdown <;>
    simp [Store.SetHead, Store.setHeadPersistent, h, hs, alistGet_alistPut_self]

/-- Witness for the amended C5 at a store whose head is the genesis tipset. -/
theorem setHead_undefined_proceeds_witness :
    (headStore.SetHead []).2 = none ∧
    (headStore.SetHead []).1.head = [] ∧
    alistGet (headStore.SetHead []).1.ds .headK =
      some (.cidsV (tipKey [])) ∧
    (headStore.SetHead []).1.errorLogCount = headStore.errorLogCount + 1 :=
  setHead_undefined_proceeds headStore [] rfl

/-- C7: after `Stop` has shut down the head-change broadcaster, `SetHead`
still persists the new head (head key written, in-memory head updated) and
returns success; no event reaches subscribers and no error surfaces. -/
theorem setHead_after_stop (st : Store) (ts : TipSet) :
    ((st.Stop).SetHead ts).2 = none ∧
    ((st.Stop).SetHead ts).1.head = ts ∧
    alistGet ((st.Stop).SetHead ts).1.ds .headK = some (.cidsV (tipKey ts)) ∧
    ((st.Stop).SetHead ts).1.publishedEvents = st.publishedEvents := by
  cases hd : ts.Defined <;>
    simp [Store.Stop, Store.SetHead, Store.setHeadPersistent, hd,
      alistGet_alistPut_self]

/-- C8: the code under-counts its progress-logging bound.  On the persisted
linear chain with head height 10 the load succeeds, derives the cadence
modulus `10 / 10 = 1`, and emits the per-tipset progress message 11 times
(heights 10, 9, ..., 0) — contradicting "at most 10 times" (and the code's
own comment "Ensure we only produce 10 log messages"). -/
theorem load_progress_logs_eleven :
    (Store.Load 20 chainStore).2 = none ∧
    at0Height (Store.Load 20 chainStore).1.head = 10 ∧
    (Store.Load 20 chainStore).1.progressLogs = 11 := by decide

end GoFilecoin
